import Mathlib

/-!
Verification of the net-conn-nats-proxy repository: a shallow embedding of
the client-side stream adapter (`NatsNetConn`), the server-side proxy
handlers (`NatsConnProxy`), the connection-pool manager
(`NetConnPullManager`), the deadline serialization and the identity-token
generator, together with theorems settling the specification's claims.

Bytes are modelled as natural numbers (with `< 256` bounds where they
matter), Go byte slices as `List Nat`, Go strings as `String`, absolute
times both as calendar components (`DateTime`, mirroring the fields Go's
formatting and parsing work with) and as integer nanoseconds since the
zero instant (January 1, year 1, UTC). Fallible Go calls return
`Except String`; external collaborators (the dial function, the real
stream's I/O, the randomness source) are passed in as explicit parameters,
exactly where the source injects them.
-/

namespace NetConnNatsProxy

/-! ## Go primitives -/

/-- Go's `copy(dst, src)` for byte slices: copies `min (len src) (len dst)`
bytes of `src` into the front of `dst`, leaving the rest of `dst` intact. -/
def goCopy (dst src : List Nat) : List Nat :=
  src.take dst.length ++ dst.drop (min src.length dst.length)

/-- Decimal digit test on characters, as Go's `isDigit`. -/
def isDigitB (c : Char) : Bool := decide ('0' ≤ c ∧ c ≤ '9')

/-- Value of a decimal digit character. -/
def digitVal (c : Char) : Nat := c.toNat - 48

/-- Read one decimal digit character. -/
def readDigit (c : Char) : Option Nat :=
  if isDigitB c then some (c.toNat - 48) else none

/-- Big-endian decimal digits of `n`, zero-padded to width `k`
(the digit list Go's zero-padded numeric formatting prints). -/
def natDigitsPadded : Nat → Nat → List Nat
  | 0, _ => []
  | k + 1, n => natDigitsPadded k (n / 10) ++ [n % 10]

/-- Numeric value of a big-endian digit list. -/
def valueOfDigits (ds : List Nat) : Nat :=
  ds.foldl (fun a d => a * 10 + d) 0

/-- Zero-padded `k`-wide decimal rendering of `n`. -/
def pad (k n : Nat) : List Char :=
  (natDigitsPadded k n).map Nat.digitChar

/-- Decimal digit list of `n` without leading zeros (Go `strconv.Itoa` digits). -/
def toDecDigits (n : Nat) : List Nat :=
  if h : n < 10 then [n]
  else toDecDigits (n / 10) ++ [n % 10]
  decreasing_by exact Nat.div_lt_self (by omega) (by omega)

/-- Go `strconv.Itoa n` for a non-negative count, as a character list. -/
def toDecString (n : Nat) : List Char :=
  (toDecDigits n).map Nat.digitChar

/-- Go `strconv.Itoa n` rendered as ASCII bytes (the proxy's reply bodies). -/
def toDecBytes (n : Nat) : List Nat :=
  (toDecString n).map Char.toNat

/-- Accumulating run of decimal digits; fails on any non-digit. -/
def parseDecDigitsAux (acc : Nat) : List Char → Option Nat
  | [] => some acc
  | c :: rest =>
    match readDigit c with
    | some d => parseDecDigitsAux (acc * 10 + d) rest
    | none => none

/-- Go `strconv.Atoi` syntax-error message. -/
def atoiSyntaxErr (s : String) : String :=
  "strconv.Atoi: parsing \x22" ++ s ++ "\x22: invalid syntax"

/-- Go `strconv.Atoi` range-error message. -/
def atoiRangeErr (s : String) : String :=
  "strconv.Atoi: parsing \x22" ++ s ++ "\x22: value out of range"

/-- Go `strconv.Atoi`: optional sign, a non-empty digit run, 64-bit range. -/
def goAtoi (s : String) : Except String Int :=
  match s.toList with
  | [] => .error (atoiSyntaxErr s)
  | c :: rest =>
    let signDigits : Int × List Char :=
      if c = '-' then (-1, rest) else if c = '+' then (1, rest) else (1, c :: rest)
    match signDigits with
    | (sign, ds) =>
      match ds with
      | [] => .error (atoiSyntaxErr s)
      | _ :: _ =>
        match parseDecDigitsAux 0 ds with
        | none => .error (atoiSyntaxErr s)
        | some v =>
          if sign = 1 ∧ (v : Int) > 2 ^ 63 - 1 then .error (atoiRangeErr s)
          else if sign = -1 ∧ (v : Int) > 2 ^ 63 then .error (atoiRangeErr s)
          else .ok (sign * (v : Int))

/-! ## Client adapter: reply handling (`NatsNetConn.Read`, reply branch) -/

/-- The reply-processing tail of `NatsNetConn.Read` (nats_conn source,
after `RequestMsg` returns a reply): inspect the `err` header, guard the
body length against the buffer, copy and return the body length.
Returns the buffer after the call together with Go's `(n, err)` pair,
encoded as `Except`. -/
def natsNetConnReadReply (errHdr : String) (data b : List Nat) :
    List Nat × Except String Nat :=
  if errHdr ≠ "" then (b, .error ("nats error: " ++ errHdr))
  else if data.length > b.length then (b, .error "message too long")
  else (goCopy b data, .ok data.length)

/-! ## Connection-pool manager (`NetConnPullManager`) -/

/-- Raw streams are abstract identifiers. -/
abbrev Conn := Nat

/-- `connEnvelop`: a pooled entry wrapping the raw stream together with its
pool key (the backreference to the pool is the ambient pool state here). -/
structure ConnEnvelop where
  conn : Conn
  key : String
deriving DecidableEq, Repr

/-- The pool map, as an association list with Go-map semantics
(lookup by key; at most one binding per key by construction). -/
abbrev Pool := List (String × ConnEnvelop)

/-- A `(network, host:port)` endpoint. -/
structure Addr where
  network : String
  str : String
deriving DecidableEq, Repr

/-- `NetConnPullManager.generateKey`: `fmt.Sprintf("%s-%s", addr.String(), uuid)`. -/
def generateKey (addrStr uuid : String) : String :=
  addrStr ++ "-" ++ uuid

/-- Go map lookup on the pool. -/
def poolLookup (p : Pool) (k : String) : Option ConnEnvelop :=
  match p with
  | [] => none
  | (k', e) :: rest => if k' = k then some e else poolLookup rest k

/-- Go `delete(cp.pool, key)`. -/
def poolDeleteKey (p : Pool) (k : String) : Pool :=
  p.filter (fun kv => kv.1 ≠ k)

/-- What `Get` hands back to its caller: on a pool hit the stored envelope,
on a miss the raw conn freshly dialed (the source returns `conn`, not the
envelope it just stored). -/
inductive Handed where
  | envelope (e : ConnEnvelop)
  | raw (c : Conn)
deriving DecidableEq, Repr

/-- `NetConnPullManager.Get`: look the generated key up; on a hit return the
envelope and leave the pool unchanged; on a miss dial, and either fail with
the wrapped dial error (pool unchanged) or store an envelope under the key
and return the raw conn. -/
def NetConnPullManager.Get (dial : String → String → Except String Conn)
    (p : Pool) (addr : Addr) (uuid : String) : Except String (Handed × Pool) :=
  let key := generateKey addr.str uuid
  match poolLookup p key with
  | some cEnv => .ok (.envelope cEnv, p)
  | none =>
    match dial addr.network addr.str with
    | .error e => .error ("dial: " ++ e)
    | .ok conn => .ok (.raw conn, p ++ [(key, ⟨conn, key⟩)])

/-- Observable events of a stream close. -/
inductive Ev where
  | poolDelete (key : String)
  | rawClose (c : Conn)
deriving DecidableEq, Repr

/-- `connEnvelop.Close`: first `ce.pm.delete(ce.key)`, then `ce.Conn.Close()`.
Returns the pool after the call and the ordered event trace. -/
def ConnEnvelop.Close (e : ConnEnvelop) (p : Pool) : Pool × List Ev :=
  (poolDeleteKey p e.key, [.poolDelete e.key, .rawClose e.conn])

/-- Closing whatever `Get` handed out: an envelope runs `connEnvelop.Close`;
a raw conn just closes itself and never touches the pool. -/
def Handed.close : Handed → Pool → Pool × List Ev
  | .envelope e, p => ConnEnvelop.Close e p
  | .raw c, p => (p, [.rawClose c])

/-- Keys of the pool map are pairwise distinct (Go-map wellformedness). -/
def keysNodup (p : Pool) : Prop :=
  (p.map Prod.fst).Nodup

/-- Body of `NetConnPullManager.Close`: iterate over the pool's entries,
closing each envelope (which deletes its key, then closes the raw stream via
`closeRaw`); stop and return the wrapped error at the first failing close.
Returns the final pool, the raw conns whose close was attempted (in order),
and the result. -/
def poolCloseAux (closeRaw : Conn → Except String Unit) :
    List (String × ConnEnvelop) → Pool → Pool × List Conn × Except String Unit
  | [], p => (p, [], .ok ())
  | (_, e) :: rest, p =>
    let p' := poolDeleteKey p e.key
    match closeRaw e.conn with
    | .error err => (p', [e.conn], .error ("close connection: " ++ err))
    | .ok _ =>
      let r := poolCloseAux closeRaw rest p'
      (r.1, e.conn :: r.2.1, r.2.2)

/-- `NetConnPullManager.Close`: range over the pool and close every entry
until the first failure. -/
def NetConnPullManager.Close (closeRaw : Conn → Except String Unit) (p : Pool) :
    Pool × List Conn × Except String Unit :=
  poolCloseAux closeRaw p p

/-! ## Absolute times

`DateTime` mirrors the calendar components Go's `Format` prints and `Parse`
reconstructs: year/month/day, clock, nanoseconds, and the zone offset in
minutes (RFC3339's `Z07:00` renders whole minutes). -/

structure DateTime where
  year : Nat
  month : Nat
  day : Nat
  hour : Nat
  minute : Nat
  second : Nat
  nanos : Nat
  offMin : Int
deriving DecidableEq, Repr

/-- Gregorian leap year. -/
def isLeap (y : Nat) : Bool :=
  (y % 4 = 0 && y % 100 != 0) || y % 400 = 0

/-- Length of a month. -/
def daysInMonth (y m : Nat) : Nat :=
  if m = 2 then (if isLeap y then 29 else 28)
  else if m = 4 ∨ m = 6 ∨ m = 9 ∨ m = 11 then 30
  else 31

/-- Days from 1970-01-01 to the civil date `y-m-d` (Gregorian, proleptic),
the standard era-based algorithm Go's calendar arithmetic agrees with. -/
def daysFromCivil (y : Int) (m d : Nat) : Int :=
  let y' : Int := if m ≤ 2 then y - 1 else y
  let era : Int := Int.fdiv y' 400
  let yoe : Int := y' - era * 400
  let mp : Nat := (m + 9) % 12
  let doy : Int := Int.fdiv (153 * (mp : Int) + 2) 5 + ((d : Int) - 1)
  let doe : Int := yoe * 365 + Int.fdiv yoe 4 - Int.fdiv yoe 100 + doy
  era * 146097 + doe - 719468

/-- Nanoseconds from the zero instant (0001-01-01T00:00:00 UTC) to `t`
as an absolute instant: wall-clock nanoseconds minus the zone offset. -/
def dtAbsNanos (t : DateTime) : Int :=
  ((daysFromCivil t.year t.month t.day - daysFromCivil 1 1 1) * 86400
      + (t.hour : Int) * 3600 + (t.minute : Int) * 60 + (t.second : Int)
      - t.offMin * 60) * 1000000000
    + (t.nanos : Int)

/-- Go `Time.IsZero`: the instant equals January 1, year 1, 00:00:00 UTC. -/
def dtIsZero (t : DateTime) : Prop := dtAbsNanos t = 0

instance (t : DateTime) : Decidable (dtIsZero t) := by
  unfold dtIsZero; infer_instance

/-- The components Go's zero `time.Time` carries. -/
def dtZero : DateTime := ⟨1, 1, 1, 0, 0, 0, 0, 0⟩

/-- A `DateTime` within the domain the RFC3339Nano layout renders exactly:
four-digit year, valid calendar date, valid clock, sub-second nanoseconds,
and a whole-minute zone offset below 24 hours. -/
def wellFormedDT (t : DateTime) : Prop :=
  1 ≤ t.year ∧ t.year ≤ 9999 ∧ 1 ≤ t.month ∧ t.month ≤ 12 ∧
  1 ≤ t.day ∧ t.day ≤ daysInMonth t.year t.month ∧
  t.hour ≤ 23 ∧ t.minute ≤ 59 ∧ t.second ≤ 59 ∧
  t.nanos < 1000000000 ∧ t.offMin.natAbs ≤ 23 * 60 + 59

instance (t : DateTime) : Decidable (wellFormedDT t) := by
  unfold wellFormedDT; infer_instance

/-! ### RFC3339Nano formatting (Go `t.Format(time.RFC3339Nano)`) -/

/-- Strip trailing zero digits (RFC3339Nano's `.999999999` fraction field). -/
def stripTrailingZeros (ds : List Nat) : List Nat :=
  (ds.reverse.dropWhile (· == 0)).reverse

/-- Fractional-second field: empty when `nanos = 0`, otherwise a dot and the
nine-digit nanosecond rendering with trailing zeros removed. -/
def fracPart (nanos : Nat) : List Char :=
  if nanos = 0 then []
  else '.' :: (stripTrailingZeros (natDigitsPadded 9 nanos)).map Nat.digitChar

/-- Zone field `Z07:00`: `Z` for UTC, otherwise a sign and `hh:mm`. -/
def zonePart (off : Int) : List Char :=
  if off = 0 then ['Z']
  else (if off < 0 then '-' else '+') ::
    (pad 2 (off.natAbs / 60) ++ ':' :: pad 2 (off.natAbs % 60))

/-- Go `t.Format(time.RFC3339Nano)` on the components of `t`. -/
def formatRFC3339Nano (t : DateTime) : List Char :=
  pad 4 t.year ++ '-' ::
    (pad 2 t.month ++ '-' ::
      (pad 2 t.day ++ 'T' ::
        (pad 2 t.hour ++ ':' ::
          (pad 2 t.minute ++ ':' ::
            (pad 2 t.second ++ (fracPart t.nanos ++ zonePart t.offMin))))))

/-- The string the client adapter writes into the deadline headers
(`c.readDeadLine.Format(time.RFC3339Nano)`). -/
def serializeDeadline (t : DateTime) : String :=
  ⟨formatRFC3339Nano t⟩

/-! ### RFC3339Nano parsing (Go `time.Parse(time.RFC3339Nano, s)`) -/

/-- Read exactly `k` decimal digits, most significant first. -/
def parseFixedAux (k : Nat) (acc : Nat) (cs : List Char) :
    Option (Nat × List Char) :=
  match k, cs with
  | 0, cs => some (acc, cs)
  | _ + 1, [] => none
  | k + 1, c :: cs =>
    match readDigit c with
    | some d => parseFixedAux k (acc * 10 + d) cs
    | none => none

/-- Read a `k`-digit zero-padded number. -/
def parseFixed (k : Nat) (cs : List Char) : Option (Nat × List Char) :=
  parseFixedAux k 0 cs

/-- Expect one literal character. -/
def expectCh (c : Char) : List Char → Option (List Char)
  | c' :: rest => if c' = c then some rest else none
  | [] => none

/-- Optional fractional seconds: absent when the next character is not a dot;
otherwise one to nine digits, scaled up to nanoseconds. -/
def parseFrac : List Char → Option (Nat × List Char)
  | [] => some (0, [])
  | c :: rest =>
    if c = '.' then
      let ds := rest.takeWhile isDigitB
      if ds.length = 0 ∨ 9 < ds.length then none
      else some (valueOfDigits (ds.map digitVal) * 10 ^ (9 - ds.length),
        rest.drop ds.length)
    else some (0, c :: rest)

/-- Signed `hh:mm` zone offset, in minutes. -/
def parseOff (sign : Int) (cs : List Char) : Option (Int × List Char) :=
  (parseFixed 2 cs).bind fun phh =>
  (expectCh ':' phh.2).bind fun cs2 =>
  (parseFixed 2 cs2).bind fun pmm =>
  some (sign * ((phh.1 : Int) * 60 + (pmm.1 : Int)), pmm.2)

/-- Zone field: `Z` or a signed `hh:mm` offset. -/
def parseZone : List Char → Option (Int × List Char)
  | [] => none
  | c :: rest =>
    if c = 'Z' then some (0, rest)
    else if c = '+' then parseOff 1 rest
    else if c = '-' then parseOff (-1) rest
    else none

/-- The `2006-01-02` date fields: year, month, day and the remaining input. -/
def parseDatePart (cs0 : List Char) : Option (Nat × Nat × Nat × List Char) :=
  (parseFixed 4 cs0).bind fun py =>
  (expectCh '-' py.2).bind fun cs1 =>
  (parseFixed 2 cs1).bind fun pmo =>
  (expectCh '-' pmo.2).bind fun cs2 =>
  (parseFixed 2 cs2).bind fun pd =>
  some (py.1, pmo.1, pd.1, pd.2)

/-- The `T15:04:05` clock fields: hour, minute, second and the remaining input. -/
def parseClockPart (cs : List Char) : Option (Nat × Nat × Nat × List Char) :=
  (expectCh 'T' cs).bind fun cs3 =>
  (parseFixed 2 cs3).bind fun ph =>
  (expectCh ':' ph.2).bind fun cs4 =>
  (parseFixed 2 cs4).bind fun pmi =>
  (expectCh ':' pmi.2).bind fun cs5 =>
  (parseFixed 2 cs5).bind fun ps =>
  some (ph.1, pmi.1, ps.1, ps.2)

/-- Go `Parse`'s range validation of the parsed fields. -/
def dtRangesOk (y mo d h mi s : Nat) : Bool :=
  decide (1 ≤ mo) && decide (mo ≤ 12) && decide (1 ≤ d) &&
    decide (d ≤ daysInMonth y mo) && decide (h ≤ 23) &&
    decide (mi ≤ 59) && decide (s ≤ 59)

/-- Go `time.Parse(time.RFC3339Nano, ·)` on a character list: fixed-width
date and clock fields, optional fraction, zone, no trailing input, and Go's
range validation of month, day, hour, minute and second. -/
def parseRFC3339Nano (cs0 : List Char) : Option DateTime :=
  (parseDatePart cs0).bind fun pymd =>
  (parseClockPart pymd.2.2.2).bind fun phms =>
  (parseFrac phms.2.2.2).bind fun pns =>
  (parseZone pns.2).bind fun poff =>
  if poff.2.isEmpty &&
      dtRangesOk pymd.1 pymd.2.1 pymd.2.2.1 phms.1 phms.2.1 phms.2.2.1 then
    some ⟨pymd.1, pymd.2.1, pymd.2.2.1, phms.1, phms.2.1, phms.2.2.1,
      pns.1, poff.1⟩
  else none

/-- Deadline-header parse on the proxy side. -/
def parseDeadlineHdr (s : String) : Option DateTime :=
  parseRFC3339Nano s.toList

/-- The proxy's deadline application guard: `time.Parse` succeeded and the
parsed time is not the zero instant; returns the deadline the proxy applies
to the pooled stream, if any. -/
def applyDeadlineHdr (s : String) : Option DateTime :=
  match parseDeadlineHdr s with
  | some d => if dtIsZero d then none else some d
  | none => none

/-! ## Server-side proxy (`NatsConnProxy` handlers)

External collaborators of a handler — address resolution, the pool, and the
pooled stream's I/O — are the fields of `ProxyEnv`, mirroring the calls the
handlers make. `connRead conn n` returns the bytes a single
`conn.Read(buf)` on a buffer of size `n` delivers (at most `n` of them). -/

structure ProxyEnv where
  resolveTCPAddr : String → String → Except String Addr
  poolGet : Addr → String → Except String Conn
  connRead : Conn → Nat → Except String (List Nat)
  connWrite : Conn → List Nat → Except String Nat
  connClose : Conn → Except String Unit

/-- An incoming operation message: the header values the handlers read
(a missing header reads as `""`) and the body. -/
structure OpMsg where
  network : String
  addr : String
  readSize : String
  readDeadlineHdr : String
  writeDeadlineHdr : String
  uuid : String
  data : List Nat
deriving Repr

/-- What a handler does: reply with an `err` header value (`""` on success)
and a body, or panic before replying. -/
inductive HandlerOut where
  | panic
  | reply (errHdr : String) (body : List Nat)
deriving DecidableEq, Repr

/-- `NatsConnProxy.getNetConn`: resolve the TCP address, then ask the pool. -/
def getNetConn (env : ProxyEnv) (network addr uuid : String) :
    Except String Conn :=
  match env.resolveTCPAddr network addr with
  | .error e => .error e
  | .ok a => env.poolGet a uuid

/-- `zeroLenStr`, the byte slice `[]byte("0")`. -/
def zeroLenStr : List Nat := [48]

/-- `NatsConnProxy.readHandler`: prologue (resolve, pool get, size parse),
buffer allocation — which panics for a negative parsed size, as Go's
`make([]byte, bufSize)` does — deadline application, one read, reply.
Also returns the deadline applied to the pooled stream, if any. -/
def readHandler (env : ProxyEnv) (m : OpMsg) : HandlerOut × Option DateTime :=
  match getNetConn env m.network m.addr m.uuid with
  | .error e => (.reply e [], none)
  | .ok conn =>
    match goAtoi m.readSize with
    | .error e => (.reply e [], none)
    | .ok bufSize =>
      if bufSize < 0 then (.panic, none)
      else
        let applied := applyDeadlineHdr m.readDeadlineHdr
        match env.connRead conn bufSize.toNat with
        | .error e => (.reply e [], applied)
        | .ok bytes => (.reply "" (bytes.take bufSize.toNat), applied)

/-- `NatsConnProxy.writeHandler`: prologue, deadline application, one write
of the request body, reply with the decimal count; `zeroLenStr` on failure. -/
def writeHandler (env : ProxyEnv) (m : OpMsg) : HandlerOut × Option DateTime :=
  match getNetConn env m.network m.addr m.uuid with
  | .error e => (.reply e zeroLenStr, none)
  | .ok conn =>
    let applied := applyDeadlineHdr m.writeDeadlineHdr
    match env.connWrite conn m.data with
    | .error e => (.reply e zeroLenStr, applied)
    | .ok n => (.reply "" (toDecBytes n), applied)

/-- `NatsConnProxy.closeHandler`: prologue, close the pooled stream, reply
with an empty body either way. -/
def closeHandler (env : ProxyEnv) (m : OpMsg) : HandlerOut :=
  match getNetConn env m.network m.addr m.uuid with
  | .error e => .reply e []
  | .ok conn =>
    match env.connClose conn with
    | .error e => .reply e []
    | .ok _ => .reply "" []

/-! ## Identity tokens (`_UUIDFromCryptoRand`) -/

/-- Uppercase hexadecimal digit. -/
def hexDigitU (d : Nat) : Char :=
  "0123456789ABCDEF".toList.getD d '0'

/-- `%X` of one byte: exactly two uppercase hex digits. -/
def hexByteU (b : Nat) : List Char :=
  [hexDigitU (b / 16), hexDigitU (b % 16)]

/-- `%X` of a byte slice. -/
def hexBytesU : List Nat → List Char
  | [] => []
  | b :: rest => hexByteU b ++ hexBytesU rest

/-- Uppercase hex digit test. -/
def isUpperHexDigit (c : Char) : Bool :=
  decide (('0' ≤ c ∧ c ≤ '9') ∨ ('A' ≤ c ∧ c ≤ 'F'))

/-- The `fmt.Sprintf("%X-%X-%X-%X-%X", b[0:4], b[4:6], b[6:8], b[8:10], b[10:])`
rendering of the 16 random bytes. -/
def uuidFromBytes (bs : List Nat) : List Char :=
  hexBytesU (bs.take 4) ++ '-' ::
    (hexBytesU ((bs.drop 4).take 2) ++ '-' ::
      (hexBytesU ((bs.drop 6).take 2) ++ '-' ::
        (hexBytesU ((bs.drop 8).take 2) ++ '-' ::
          hexBytesU (bs.drop 10))))

/-- `_UUIDFromCryptoRand`: read 16 random bytes (the outcome of
`rand.Read` is the `randRead` parameter); fail iff that read fails,
otherwise render the grouped uppercase-hex token. -/
def UUIDFromCryptoRand (randRead : Except String (List Nat)) :
    Except String String :=
  match randRead with
  | .error e => .error e
  | .ok b => .ok ⟨uuidFromBytes b⟩

/-! ## Client-side stream adapter (`NatsNetConn`) -/

/-- Client adapter state: subject, endpoint, identity token, deadlines. -/
structure NatsNetConn where
  subject : String
  addr : Addr
  uuid : String
  readDeadLine : DateTime
  writeDeadLine : DateTime
deriving Repr

/-- `NewNatsNetConn`: generate the identity token (failing construction on a
randomness failure, with the wrapped message) and start with zero deadlines. -/
def NewNatsNetConn (subject : String) (addr : Addr)
    (randRead : Except String (List Nat)) : Except String NatsNetConn :=
  match UUIDFromCryptoRand randRead with
  | .error e => .error ("generate uuid: " ++ e)
  | .ok uuid => .ok ⟨subject, addr, uuid, dtZero, dtZero⟩

/-- Minimum of Go's `time.Duration` (`int64` nanoseconds). -/
def minDuration : Int := -(2 ^ 63)

/-- Maximum of Go's `time.Duration`. -/
def maxDuration : Int := 2 ^ 63 - 1

/-- Go `time.Time.Sub` clamps into the `int64` duration range. -/
def durClamp (d : Int) : Int :=
  if d < minDuration then minDuration
  else if d > maxDuration then maxDuration
  else d

/-- Go `time.Until(t)` at the current instant `now` (absolute nanoseconds
since the zero instant): the clamped difference `t − now`. -/
def timeUntil (t now : Int) : Int :=
  durClamp (t - now)

/-- The READ request `NatsNetConn.Read` builds: the headers it sets and the
timeout `rd := time.Until(c.readDeadline())` it passes to `RequestMsg`. -/
structure ReadRequest where
  subject : String
  readSizeHdr : String
  networkHdr : String
  addrHdr : String
  readDeadlineHdr : String
  uuidHdr : String
  timeout : Int
deriving Repr

/-- Request-building half of `NatsNetConn.Read` (before `RequestMsg`). -/
def NatsNetConn.buildReadRequest (c : NatsNetConn) (blen : Nat) (now : Int) :
    ReadRequest :=
  { subject := c.subject ++ ".read"
    readSizeHdr := ⟨toDecString blen⟩
    networkHdr := c.addr.network
    addrHdr := c.addr.str
    readDeadlineHdr := serializeDeadline c.readDeadLine
    uuidHdr := c.uuid
    timeout := timeUntil (dtAbsNanos c.readDeadLine) now }

/-- The WRITE request `NatsNetConn.Write` builds. -/
structure WriteRequest where
  subject : String
  networkHdr : String
  addrHdr : String
  writeDeadlineHdr : String
  uuidHdr : String
  data : List Nat
  timeout : Int
deriving Repr

/-- Request-building half of `NatsNetConn.Write` (before `RequestMsg`). -/
def NatsNetConn.buildWriteRequest (c : NatsNetConn) (b : List Nat) (now : Int) :
    WriteRequest :=
  { subject := c.subject ++ ".write"
    networkHdr := c.addr.network
    addrHdr := c.addr.str
    writeDeadlineHdr := serializeDeadline c.writeDeadLine
    uuidHdr := c.uuid
    data := b
    timeout := timeUntil (dtAbsNanos c.writeDeadLine) now }

/-! ## Concrete fixtures used when evaluating claims on specific inputs -/

/-- An environment whose address resolution fails with "rb". -/
def envResolveFail : ProxyEnv :=
  ⟨fun _ _ => .error "rb", fun _ _ => .ok 0, fun _ _ => .ok [],
   fun _ _ => .ok 0, fun _ => .ok ()⟩

/-- An environment where the prologue succeeds and every I/O call succeeds. -/
def envAllOk : ProxyEnv :=
  ⟨fun _ _ => .ok ⟨"tcp", "a"⟩, fun _ _ => .ok 0, fun _ _ => .ok [],
   fun _ _ => .ok 0, fun _ => .ok ()⟩

/-- An environment where the prologue succeeds and the stream write fails. -/
def envWriteFail : ProxyEnv :=
  ⟨fun _ _ => .ok ⟨"tcp", "a"⟩, fun _ _ => .ok 0, fun _ _ => .ok [],
   fun _ _ => .error "wboom", fun _ => .ok ()⟩

/-- A concrete operation message with the given read-size header. -/
def msgWithReadSize (rs : String) : OpMsg :=
  ⟨"tcp", "a", rs, "", "", "u", [1, 2]⟩

/-- A concrete "current instant": 2024-01-01T00:00:00 UTC. -/
def nowInstant2024 : Int := dtAbsNanos ⟨2024, 1, 1, 0, 0, 0, 0, 0⟩

/-! ## Theorems -/

/-- Claim C1: for every buffer `b` and proxy reply, the client adapter's
`Read` fails with the carried message when the `err` header is non-empty,
fails with "message too long" delivering no bytes when the body exceeds
`len(b)`, and otherwise copies the body into the front of `b` and returns
its length — a zero-length body with empty `err` being a `(0, nil)` read. -/
theorem claim_C1_read_reply_cases (errHdr : String) (data b : List Nat) :
    (errHdr ≠ "" →
      natsNetConnReadReply errHdr data b = (b, .error ("nats error: " ++ errHdr))) ∧
    (errHdr = "" → b.length < data.length →
      natsNetConnReadReply errHdr data b = (b, .error "message too long")) ∧
    (errHdr = "" → data.length ≤ b.length →
      natsNetConnReadReply errHdr data b = (data ++ b.drop data.length, .ok data.length)) ∧
    (errHdr = "" → data = [] →
      natsNetConnReadReply errHdr data b = (b, .ok 0)) := by
  refine ⟨fun h => by simp [natsNetConnReadReply, h], fun h hlen => ?_, fun h hlen => ?_, fun h hnil => ?_⟩
  · unfold natsNetConnReadReply
    rw [if_neg (by simp [h]), if_pos hlen]
  · unfold natsNetConnReadReply goCopy
    rw [if_neg (by simp [h]), if_neg (by omega)]
    rw [List.take_of_length_le hlen, Nat.min_eq_left hlen]
  · subst hnil
    unfold natsNetConnReadReply goCopy
    rw [if_neg (by simp [h]), if_neg (by simp)]
    simp

/-- Witness for C1 at concrete replies: an error reply, and a successful
two-byte body copied into a three-byte buffer. -/
theorem claim_C1_read_reply_cases_witness :
    natsNetConnReadReply "boom" [1, 2] [0, 0, 0] = ([0, 0, 0], .error "nats error: boom") ∧
    natsNetConnReadReply "" [7, 8] [0, 0, 0] = ([7, 8, 0], .ok 2) :=
  ⟨(claim_C1_read_reply_cases "boom" [1, 2] [0, 0, 0]).1 (by decide),
   (claim_C1_read_reply_cases "" [7, 8] [0, 0, 0]).2.2.1 rfl (by decide)⟩

/-- Claim C5: every prologue failure — address resolution (which surfaces
through `getNetConn`), pool `Get`, or read-size parse — short-circuits with
the failure's message in the `err` header and the operation's success-body
shape: empty for READ and CLOSE, the ASCII literal "0" for WRITE. -/
theorem claim_C5_prologue_error_replies (env : ProxyEnv) (m : OpMsg) :
    (∀ e, getNetConn env m.network m.addr m.uuid = .error e →
      (readHandler env m).1 = .reply e [] ∧
      closeHandler env m = .reply e [] ∧
      (writeHandler env m).1 = .reply e zeroLenStr) ∧
    (∀ e, env.resolveTCPAddr m.network m.addr = .error e →
      getNetConn env m.network m.addr m.uuid = .error e) ∧
    (∀ conn e, getNetConn env m.network m.addr m.uuid = .ok conn →
      goAtoi m.readSize = .error e →
      (readHandler env m).1 = .reply e []) := by
  refine ⟨fun e h => ?_, fun e h => ?_, fun conn e h h2 => ?_⟩
  · exact ⟨by simp [readHandler, h], by simp [closeHandler, h], by simp [writeHandler, h]⟩
  · simp [getNetConn, h]
  · simp [readHandler, h, h2]

/-- Witness for C5: a concrete environment whose address resolution fails
with "rb", observed on all three handlers, and a concrete unparseable
read-size header. -/
theorem claim_C5_prologue_error_replies_witness :
    (readHandler envResolveFail (msgWithReadSize "4")).1 = .reply "rb" [] ∧
    closeHandler envResolveFail (msgWithReadSize "4") = .reply "rb" [] ∧
    (writeHandler envResolveFail (msgWithReadSize "4")).1 = .reply "rb" zeroLenStr ∧
    (readHandler envAllOk (msgWithReadSize "4x")).1 = .reply (atoiSyntaxErr "4x") [] := by
  refine ⟨?_, ?_, ?_, ?_⟩
  · exact ((claim_C5_prologue_error_replies envResolveFail (msgWithReadSize "4")).1 "rb" rfl).1
  · exact ((claim_C5_prologue_error_replies envResolveFail (msgWithReadSize "4")).1 "rb" rfl).2.1
  · exact ((claim_C5_prologue_error_replies envResolveFail (msgWithReadSize "4")).1 "rb" rfl).2.2
  · exact (claim_C5_prologue_error_replies envAllOk (msgWithReadSize "4x")).2.2 0
      (atoiSyntaxErr "4x") rfl rfl

/-- Claim C10: a READ message whose `read-size` header parses as the
negative integer "-1" drives the read handler past every error-reply branch
into `make([]byte, -1)`, which panics; the handler produces no reply. -/
theorem claim_C10_negative_read_size_panics :
    goAtoi "-1" = .ok (-1) ∧
    (readHandler envAllOk (msgWithReadSize "-1")).1 = .panic := by
  constructor
  · rfl
  · rfl

/-- Claim C3 (divergence witness): on a pool miss, `Get` stores the
wrapping envelope in the pool but hands the caller the raw dialed conn;
closing that returned stream emits no pool-delete event and leaves the
pool entry in place — so the handed-out stream's close does not remove the
pool entry before closing the raw stream. -/
theorem claim_C3_miss_path_close_keeps_entry :
    NetConnPullManager.Get (fun _ _ => .ok 7) [] ⟨"tcp", "127.0.0.1:6379"⟩ "u"
      = .ok (.raw 7, [("127.0.0.1:6379-u", ⟨7, "127.0.0.1:6379-u"⟩)]) ∧
    Handed.close (.raw 7) [("127.0.0.1:6379-u", ⟨7, "127.0.0.1:6379-u"⟩)]
      = ([("127.0.0.1:6379-u", ⟨7, "127.0.0.1:6379-u"⟩)], [.rawClose 7]) ∧
    poolLookup [("127.0.0.1:6379-u", ⟨7, "127.0.0.1:6379-u"⟩)] "127.0.0.1:6379-u"
      = some ⟨7, "127.0.0.1:6379-u"⟩ := by
  refine ⟨?_, rfl, ?_⟩
  · rfl
  · rfl

/-! ### Pool lemmas -/

theorem poolLookup_none_not_mem (p : Pool) (k : String)
    (h : poolLookup p k = none) : k ∉ p.map Prod.fst := by
  induction p with
  | nil => simp
  | cons kv rest ih =>
    obtain ⟨k', e⟩ := kv
    by_cases hk : k' = k
    · simp [poolLookup, hk] at h
    · simp only [poolLookup, if_neg hk] at h
      simp [ih h, Ne.symm hk]

theorem keysNodup_append_single (p : Pool) (k : String) (e : ConnEnvelop)
    (h : keysNodup p) (hk : k ∉ p.map Prod.fst) :
    keysNodup (p ++ [(k, e)]) := by
  unfold keysNodup at h ⊢
  rw [List.map_append]
  refine List.Nodup.append h (by simp) ?_
  intro a ha hb
  simp only [List.map_cons, List.map_nil, List.mem_singleton] at hb
  subst hb
  exact hk ha

/-- Claim C2: the pool map binds each key at most once (`keysNodup` is
preserved by `Get`), and every `Get` either returns the stored entry for
the key with the pool unchanged, fails a dial with the wrapped error and
the pool unchanged, or inserts exactly one new entry under the generated
key. -/
theorem claim_C2_pool_get_one_entry_per_key
    (dial : String → String → Except String Conn) (p : Pool) (addr : Addr)
    (uuid : String) (h : keysNodup p) :
    (∀ e, poolLookup p (generateKey addr.str uuid) = some e →
      NetConnPullManager.Get dial p addr uuid = .ok (.envelope e, p)) ∧
    (∀ msg, poolLookup p (generateKey addr.str uuid) = none →
      dial addr.network addr.str = .error msg →
      NetConnPullManager.Get dial p addr uuid = .error ("dial: " ++ msg)) ∧
    (∀ c, poolLookup p (generateKey addr.str uuid) = none →
      dial addr.network addr.str = .ok c →
      NetConnPullManager.Get dial p addr uuid =
        .ok (.raw c,
          p ++ [(generateKey addr.str uuid,
            ⟨c, generateKey addr.str uuid⟩)]) ∧
      keysNodup
        (p ++ [(generateKey addr.str uuid,
          ⟨c, generateKey addr.str uuid⟩)])) := by
  refine ⟨fun e he => ?_, fun msg he hd => ?_, fun c he hd => ⟨?_, ?_⟩⟩
  · simp [NetConnPullManager.Get, he]
  · simp [NetConnPullManager.Get, he, hd]
  · simp [NetConnPullManager.Get, he, hd]
  · exact keysNodup_append_single p _ _ h (poolLookup_none_not_mem p _ he)

/-- Witness for C2: a miss on the empty pool with a successful dial inserts
exactly the one new entry and keeps the keys duplicate-free. -/
theorem claim_C2_pool_get_one_entry_per_key_witness :
    keysNodup [] ∧
    NetConnPullManager.Get (fun _ _ => .ok 5) [] ⟨"tcp", "a"⟩ "u"
      = .ok (.raw 5, [("a-u", ⟨5, "a-u"⟩)]) ∧
    keysNodup [("a-u", ⟨5, "a-u"⟩)] := by
  have h0 : keysNodup [] := by simp [keysNodup]
  have h := (claim_C2_pool_get_one_entry_per_key (fun _ _ => .ok 5) []
    ⟨"tcp", "a"⟩ "u" h0).2.2 5 rfl rfl
  exact ⟨h0, h.1, h.2⟩

/-! ### Pool Close lemmas -/

theorem poolCloseAux_all_ok (closeRaw : Conn → Except String Unit)
    (entries : List (String × ConnEnvelop))
    (h : ∀ kv ∈ entries, closeRaw kv.2.conn = .ok ()) :
    ∀ p, (poolCloseAux closeRaw entries p).2.1
        = entries.map (fun kv => kv.2.conn) ∧
      (poolCloseAux closeRaw entries p).2.2 = .ok () := by
  induction entries with
  | nil => intro p; simp [poolCloseAux]
  | cons kv rest ih =>
    intro p
    obtain ⟨k, e⟩ := kv
    have hkv : closeRaw e.conn = .ok () := h (k, e) (List.mem_cons_self _ _)
    have ih' := ih (fun kv hm => h kv (List.mem_cons_of_mem _ hm))
      (poolDeleteKey p e.key)
    simp [poolCloseAux, hkv, ih'.1, ih'.2]

theorem poolCloseAux_first_fail (closeRaw : Conn → Except String Unit)
    (pre : List (String × ConnEnvelop)) :
    ∀ (x : String × ConnEnvelop) post msg p,
      (∀ kv ∈ pre, closeRaw kv.2.conn = .ok ()) →
      closeRaw x.2.conn = .error msg →
      (poolCloseAux closeRaw (pre ++ x :: post) p).2.1
          = pre.map (fun kv => kv.2.conn) ++ [x.2.conn] ∧
        (poolCloseAux closeRaw (pre ++ x :: post) p).2.2
          = .error ("close connection: " ++ msg) := by
  induction pre with
  | nil =>
    intro x post msg p _ hx
    obtain ⟨k, e⟩ := x
    simp [poolCloseAux, hx]
  | cons kv rest ih =>
    intro x post msg p hpre hx
    obtain ⟨k, e⟩ := kv
    have hkv : closeRaw e.conn = .ok () := hpre (k, e) (List.mem_cons_self _ _)
    have ih' := ih x post msg (poolDeleteKey p e.key)
      (fun kv hm => hpre kv (List.mem_cons_of_mem _ hm)) hx
    simp [poolCloseAux, hkv, ih'.1, ih'.2]

/-- Claim C4 (corrected form): the pool manager's `Close` closes pooled
streams in iteration order only until the first failing close, whose
wrapped error it returns — streams after a failure are skipped; when every
close succeeds, all pooled streams are closed. -/
theorem claim_C4_close_stops_at_first_failure
    (closeRaw : Conn → Except String Unit) (p : Pool) :
    ((∀ kv ∈ p, closeRaw kv.2.conn = .ok ()) →
      (NetConnPullManager.Close closeRaw p).2.1
          = p.map (fun kv => kv.2.conn) ∧
        (NetConnPullManager.Close closeRaw p).2.2 = .ok ()) ∧
    (∀ pre (x : String × ConnEnvelop) post msg, p = pre ++ x :: post →
      (∀ kv ∈ pre, closeRaw kv.2.conn = .ok ()) →
      closeRaw x.2.conn = .error msg →
      (NetConnPullManager.Close closeRaw p).2.1
          = pre.map (fun kv => kv.2.conn) ++ [x.2.conn] ∧
        (NetConnPullManager.Close closeRaw p).2.2
          = .error ("close connection: " ++ msg)) := by
  constructor
  · intro h
    exact poolCloseAux_all_ok closeRaw p h p
  · intro pre x post msg hp hpre hx
    subst hp
    exact poolCloseAux_first_fail closeRaw pre x post msg
      (pre ++ x :: post) hpre hx

/-- Counterexample to C4 as stated: with two pooled streams whose closes
both fail, `Close` attempts only the first one — stream `2` is pooled but
its close is never attempted, so a pooled stream is skipped because an
earlier close returned an error. -/
theorem claim_C4_counterexample :
    NetConnPullManager.Close (fun _ => .error "boom")
        [("k1", ⟨1, "k1"⟩), ("k2", ⟨2, "k2"⟩)]
      = ([("k2", ⟨2, "k2"⟩)], [1], .error "close connection: boom") ∧
    ("k2", (⟨2, "k2"⟩ : ConnEnvelop))
        ∈ [("k1", (⟨1, "k1"⟩ : ConnEnvelop)), ("k2", ⟨2, "k2"⟩)] ∧
    (2 : Conn) ∉ [(1 : Conn)] := by
  refine ⟨rfl, by simp, by simp⟩

/-- Witness for C4 (corrected form), all-success case: one pooled stream,
closed, with a nil error. -/
theorem claim_C4_close_stops_at_first_failure_witness :
    (NetConnPullManager.Close (fun _ => .ok ()) [("k", ⟨3, "k"⟩)]).2.1 = [3] ∧
    (NetConnPullManager.Close (fun _ => .ok ()) [("k", ⟨3, "k"⟩)]).2.2 = .ok () :=
  (claim_C4_close_stops_at_first_failure (fun _ => .ok ())
    [("k", ⟨3, "k"⟩)]).1 (by simp)

/-! ### Decimal rendering lemmas -/

theorem valueOfDigits_append_single (ds : List Nat) (d : Nat) :
    valueOfDigits (ds ++ [d]) = 10 * valueOfDigits ds + d := by
  simp [valueOfDigits, List.foldl_append]
  omega

theorem toDecDigits_all_lt (n : Nat) : ∀ d ∈ toDecDigits n, d < 10 := by
  induction n using Nat.strong_induction_on with
  | _ n ih =>
    intro d hd
    rw [toDecDigits] at hd
    by_cases h : n < 10
    · rw [dif_pos h] at hd
      simp at hd
      omega
    · rw [dif_neg h] at hd
      rcases List.mem_append.mp hd with h1 | h1
      · exact ih (n / 10) (Nat.div_lt_self (by omega) (by omega)) d h1
      · simp at h1
        omega

theorem valueOfDigits_toDecDigits (n : Nat) :
    valueOfDigits (toDecDigits n) = n := by
  induction n using Nat.strong_induction_on with
  | _ n ih =>
    rw [toDecDigits]
    by_cases h : n < 10
    · simp [h, valueOfDigits]
    · rw [dif_neg h, valueOfDigits_append_single,
        ih (n / 10) (Nat.div_lt_self (by omega) (by omega))]
      omega

theorem charToNat_digitChar (d : Nat) (h : d < 10) :
    (Nat.digitChar d).toNat = 48 + d := by
  interval_cases d <;> rfl

theorem toDecBytes_shift (n : Nat) :
    toDecBytes n = (toDecDigits n).map (fun d => 48 + d) := by
  unfold toDecBytes toDecString
  rw [List.map_map]
  exact List.map_congr_left fun d hd =>
    charToNat_digitChar d (toDecDigits_all_lt n d hd)

/-- Claim C8 (corrected form): a successful WRITE reply's body is the ASCII
decimal rendering of the count of bytes written (digit bytes whose decimal
value is the count), and every failed WRITE reply's body is `zeroLenStr`,
the single byte `0x30`. -/
theorem claim_C8_write_reply_bodies (env : ProxyEnv) (m : OpMsg) :
    (∀ conn n, getNetConn env m.network m.addr m.uuid = .ok conn →
      env.connWrite conn m.data = .ok n →
      (writeHandler env m).1 = .reply "" (toDecBytes n) ∧
      valueOfDigits ((toDecBytes n).map (fun b => b - 48)) = n ∧
      (∀ b ∈ toDecBytes n, 48 ≤ b ∧ b ≤ 57)) ∧
    (∀ e, getNetConn env m.network m.addr m.uuid = .error e →
      (writeHandler env m).1 = .reply e zeroLenStr) ∧
    (∀ conn e, getNetConn env m.network m.addr m.uuid = .ok conn →
      env.connWrite conn m.data = .error e →
      (writeHandler env m).1 = .reply e zeroLenStr) ∧
    zeroLenStr = [48] := by
  refine ⟨fun conn n hg hw => ⟨?_, ?_, ?_⟩, fun e hg => ?_,
    fun conn e hg hw => ?_, rfl⟩
  · simp [writeHandler, hg, hw]
  · rw [toDecBytes_shift, List.map_map]
    have h2 : (toDecDigits n).map ((fun b => b - 48) ∘ fun d => 48 + d)
        = (toDecDigits n).map id :=
      List.map_congr_left fun d _ => by simp
    rw [h2, List.map_id, valueOfDigits_toDecDigits]
  · intro b hb
    rw [toDecBytes_shift] at hb
    obtain ⟨d, hd, rfl⟩ := List.mem_map.mp hb
    have := toDecDigits_all_lt n d hd
    omega
  · simp [writeHandler, hg]
  · simp [writeHandler, hg, hw]

/-- Counterexample to C8 as stated: a failed WRITE reply's body is the
single byte `0x30`, not two bytes. -/
theorem claim_C8_counterexample :
    (writeHandler envWriteFail (msgWithReadSize "4")).1 = .reply "wboom" zeroLenStr ∧
    zeroLenStr.length = 1 ∧ zeroLenStr ≠ [48, 48] := by
  refine ⟨rfl, rfl, by simp [zeroLenStr]⟩

/-- Witness for C8 (corrected form): a successful write of the two-byte
body counted 2, replied as the single digit byte "2". -/
theorem claim_C8_write_reply_bodies_witness :
    (writeHandler ⟨fun _ _ => .ok ⟨"tcp", "a"⟩, fun _ _ => .ok 0, fun _ _ => .ok [],
        fun _ b => .ok b.length, fun _ => .ok ()⟩ (msgWithReadSize "4")).1
      = .reply "" (toDecBytes 2) :=
  ((claim_C8_write_reply_bodies
    ⟨fun _ _ => .ok ⟨"tcp", "a"⟩, fun _ _ => .ok 0, fun _ _ => .ok [],
      fun _ b => .ok b.length, fun _ => .ok ()⟩ (msgWithReadSize "4")).1
    0 2 rfl rfl).1

/-! ### Identity-token lemmas -/

theorem hexBytesU_length (bs : List Nat) :
    (hexBytesU bs).length = 2 * bs.length := by
  induction bs with
  | nil => simp [hexBytesU]
  | cons b rest ih =>
    simp [hexBytesU, hexByteU, ih]
    omega

theorem hexDigitU_isUpperHex (d : Nat) (h : d < 16) :
    isUpperHexDigit (hexDigitU d) = true := by
  interval_cases d <;> rfl

theorem hexBytesU_all_hex (bs : List Nat) (h : ∀ b ∈ bs, b < 256) :
    ∀ c ∈ hexBytesU bs, isUpperHexDigit c = true := by
  induction bs with
  | nil => simp [hexBytesU]
  | cons b rest ih =>
    intro c hc
    have hb : b < 256 := h b (List.mem_cons_self _ _)
    rcases List.mem_append.mp hc with h1 | h1
    · simp only [hexByteU, List.mem_cons, List.mem_singleton] at h1
      rcases h1 with rfl | h1
      · exact hexDigitU_isUpperHex _ (by omega)
      · rcases h1 with rfl | h1
        · exact hexDigitU_isUpperHex _ (by omega)
        · simp at h1
    · exact ih (fun b hb' => h b (List.mem_cons_of_mem _ hb')) c h1

/-- Claim C9: adapter construction fails exactly when reading the random
bytes fails (with the wrapped message), and on success the identity token
renders the 16 random bytes as five hyphen-separated groups of 8, 4, 4, 4
and 12 uppercase hexadecimal digits — 36 characters in total. -/
theorem claim_C9_identity_token (subject : String) (addr : Addr)
    (randRead : Except String (List Nat)) :
    (∀ e, randRead = .error e →
      NewNatsNetConn subject addr randRead = .error ("generate uuid: " ++ e)) ∧
    (∀ bs, randRead = .ok bs → bs.length = 16 → (∀ b ∈ bs, b < 256) →
      NewNatsNetConn subject addr randRead
        = .ok ⟨subject, addr, ⟨uuidFromBytes bs⟩, dtZero, dtZero⟩ ∧
      (uuidFromBytes bs).length = 36 ∧
      ∃ g1 g2 g3 g4 g5 : List Char,
        uuidFromBytes bs
          = g1 ++ '-' :: (g2 ++ '-' :: (g3 ++ '-' :: (g4 ++ '-' :: g5))) ∧
        g1.length = 8 ∧ g2.length = 4 ∧ g3.length = 4 ∧ g4.length = 4 ∧
        g5.length = 12 ∧
        (∀ c ∈ g1 ++ g2 ++ g3 ++ g4 ++ g5, isUpperHexDigit c = true)) := by
  constructor
  · intro e he
    rw [he]
    rfl
  · intro bs hbs hlen hlt
    subst hbs
    have l1 : (bs.take 4).length = 4 := by simp [hlen]
    have l2 : ((bs.drop 4).take 2).length = 2 := by simp [hlen]
    have l3 : ((bs.drop 6).take 2).length = 2 := by simp [hlen]
    have l4 : ((bs.drop 8).take 2).length = 2 := by simp [hlen]
    have l5 : (bs.drop 10).length = 6 := by simp [hlen]
    refine ⟨rfl, ?_, hexBytesU (bs.take 4), hexBytesU ((bs.drop 4).take 2),
      hexBytesU ((bs.drop 6).take 2), hexBytesU ((bs.drop 8).take 2),
      hexBytesU (bs.drop 10), rfl, ?_, ?_, ?_, ?_, ?_, ?_⟩
    · simp [uuidFromBytes, hexBytesU_length, l1, l2, l3, l4, l5]
    · rw [hexBytesU_length, l1]
    · rw [hexBytesU_length, l2]
    · rw [hexBytesU_length, l3]
    · rw [hexBytesU_length, l4]
    · rw [hexBytesU_length, l5]
    · intro c hc
      have sub1 : ∀ b ∈ bs.take 4, b < 256 :=
        fun b hb => hlt b (List.mem_of_mem_take hb)
      have sub2 : ∀ b ∈ (bs.drop 4).take 2, b < 256 :=
        fun b hb => hlt b (List.mem_of_mem_drop (List.mem_of_mem_take hb))
      have sub3 : ∀ b ∈ (bs.drop 6).take 2, b < 256 :=
        fun b hb => hlt b (List.mem_of_mem_drop (List.mem_of_mem_take hb))
      have sub4 : ∀ b ∈ (bs.drop 8).take 2, b < 256 :=
        fun b hb => hlt b (List.mem_of_mem_drop (List.mem_of_mem_take hb))
      have sub5 : ∀ b ∈ bs.drop 10, b < 256 :=
        fun b hb => hlt b (List.mem_of_mem_drop hb)
      simp only [List.append_assoc, List.mem_append] at hc
      rcases hc with h1 | h1 | h1 | h1 | h1
      · exact hexBytesU_all_hex _ sub1 c h1
      · exact hexBytesU_all_hex _ sub2 c h1
      · exact hexBytesU_all_hex _ sub3 c h1
      · exact hexBytesU_all_hex _ sub4 c h1
      · exact hexBytesU_all_hex _ sub5 c h1

/-- Witness for C9 at sixteen concrete random bytes. -/
theorem claim_C9_identity_token_witness :
    NewNatsNetConn "netconn" ⟨"tcp", "a"⟩
        (.ok [0, 1, 2, 3, 4, 5, 6, 7, 8, 9, 250, 251, 252, 253, 254, 255])
      = .ok ⟨"netconn", ⟨"tcp", "a"⟩,
          ⟨uuidFromBytes [0, 1, 2, 3, 4, 5, 6, 7, 8, 9, 250, 251, 252, 253, 254, 255]⟩,
          dtZero, dtZero⟩ ∧
    (uuidFromBytes [0, 1, 2, 3, 4, 5, 6, 7, 8, 9, 250, 251, 252, 253, 254, 255]).length
      = 36 :=
  have h := (claim_C9_identity_token "netconn" ⟨"tcp", "a"⟩
    (.ok [0, 1, 2, 3, 4, 5, 6, 7, 8, 9, 250, 251, 252, 253, 254, 255])).2
    [0, 1, 2, 3, 4, 5, 6, 7, 8, 9, 250, 251, 252, 253, 254, 255]
    rfl rfl (by decide)
  ⟨h.1, h.2.1⟩

/-- Claim C6 (divergence witness): a freshly constructed adapter stores the
zero instant as both deadlines, and at a real current instant the bus
timeout its Read and Write requests carry is `durClamp` of `0 − now` — the
minimum (negative) duration — rather than any positive default. -/
theorem claim_C6_zero_deadline_negative_timeout :
    NewNatsNetConn "netconn" ⟨"tcp", "127.0.0.1:6379"⟩ (.ok (List.replicate 16 0))
      = .ok ⟨"netconn", ⟨"tcp", "127.0.0.1:6379"⟩,
          "00000000-0000-0000-0000-000000000000", dtZero, dtZero⟩ ∧
    (NatsNetConn.buildReadRequest
        ⟨"netconn", ⟨"tcp", "127.0.0.1:6379"⟩,
          "00000000-0000-0000-0000-000000000000", dtZero, dtZero⟩
        8 nowInstant2024).timeout = minDuration ∧
    (NatsNetConn.buildWriteRequest
        ⟨"netconn", ⟨"tcp", "127.0.0.1:6379"⟩,
          "00000000-0000-0000-0000-000000000000", dtZero, dtZero⟩
        [1] nowInstant2024).timeout = minDuration ∧
    minDuration < 0 ∧ 0 < nowInstant2024 := by
  refine ⟨rfl, ?_, ?_, by decide, by decide⟩
  · decide
  · decide

/-! ### Digit-character lemmas -/

theorem isDigitB_digitChar (d : Nat) (h : d < 10) :
    isDigitB (Nat.digitChar d) = true := by
  interval_cases d <;> decide

theorem digitVal_digitChar (d : Nat) (h : d < 10) :
    digitVal (Nat.digitChar d) = d := by
  interval_cases d <;> decide

theorem readDigit_digitChar (d : Nat) (h : d < 10) :
    readDigit (Nat.digitChar d) = some d := by
  interval_cases d <;> decide

/-! ### Padded-digit lemmas -/

theorem natDigitsPadded_length (k n : Nat) :
    (natDigitsPadded k n).length = k := by
  induction k generalizing n with
  | zero => rfl
  | succ k ih => simp [natDigitsPadded, ih]

theorem natDigitsPadded_all_lt (k n : Nat) :
    ∀ d ∈ natDigitsPadded k n, d < 10 := by
  induction k generalizing n with
  | zero => simp [natDigitsPadded]
  | succ k ih =>
    intro d hd
    simp only [natDigitsPadded] at hd
    rcases List.mem_append.mp hd with h1 | h1
    · exact ih (n / 10) d h1
    · simp at h1
      omega

theorem valueOfDigits_natDigitsPadded (k : Nat) :
    ∀ n, n < 10 ^ k → valueOfDigits (natDigitsPadded k n) = n := by
  induction k with
  | zero =>
    intro n h
    have hn : n = 0 := by simpa using h
    simp [hn, natDigitsPadded, valueOfDigits]
  | succ k ih =>
    intro n h
    have h10 : n / 10 < 10 ^ k := by
      rw [Nat.div_lt_iff_lt_mul (by omega)]
      calc n < 10 ^ (k + 1) := h
        _ = 10 ^ k * 10 := by rw [pow_succ]
    rw [natDigitsPadded, valueOfDigits_append_single, ih (n / 10) h10]
    omega

theorem valueOfDigits_cons (d : Nat) (ds : List Nat) :
    valueOfDigits (d :: ds) = d * 10 ^ ds.length + valueOfDigits ds := by
  have key : ∀ (l : List Nat) (a : Nat),
      l.foldl (fun x e => x * 10 + e) a
        = a * 10 ^ l.length + l.foldl (fun x e => x * 10 + e) 0 := by
    intro l
    induction l with
    | nil => intro a; simp
    | cons e es ih =>
      intro a
      simp only [List.foldl_cons, List.length_cons]
      rw [ih (a * 10 + e), ih (0 * 10 + e)]
      ring
  unfold valueOfDigits
  simp only [List.foldl_cons]
  rw [key ds (0 * 10 + d)]
  ring

/-! ### Fixed-width parse lemmas -/

theorem parseFixedAux_spec (ds : List Nat) (rest : List Char) :
    ∀ acc, (∀ d ∈ ds, d < 10) →
      parseFixedAux ds.length acc (ds.map Nat.digitChar ++ rest)
        = some (acc * 10 ^ ds.length + valueOfDigits ds, rest) := by
  induction ds with
  | nil =>
    intro acc _
    simp [parseFixedAux, valueOfDigits]
  | cons d ds ih =>
    intro acc hd
    have hdlt : d < 10 := hd d (List.mem_cons_self _ _)
    simp only [List.map_cons, List.cons_append, List.length_cons]
    have step : parseFixedAux (ds.length + 1) acc
        (Nat.digitChar d :: (ds.map Nat.digitChar ++ rest))
        = parseFixedAux ds.length (acc * 10 + d)
            (ds.map Nat.digitChar ++ rest) := by
      simp [parseFixedAux, readDigit_digitChar d hdlt]
    rw [step]
    rw [ih (acc * 10 + d) (fun x hx => hd x (List.mem_cons_of_mem _ hx))]
    rw [valueOfDigits_cons]
    simp only [Option.some.injEq, Prod.mk.injEq]
    exact ⟨by ring, trivial⟩

theorem parseFixed_pad (k n : Nat) (rest : List Char) (h : n < 10 ^ k) :
    parseFixed k (pad k n ++ rest) = some (n, rest) := by
  have hspec := parseFixedAux_spec (natDigitsPadded k n) rest 0
    (natDigitsPadded_all_lt k n)
  rw [natDigitsPadded_length] at hspec
  unfold parseFixed pad
  rw [hspec, valueOfDigits_natDigitsPadded k n h]
  simp

theorem expectCh_cons (c : Char) (l : List Char) :
    expectCh c (c :: l) = some l := by
  simp [expectCh]

/-! ### takeWhile lemmas -/

theorem takeWhile_append_stop (p : Char → Bool) (xs : List Char) (c : Char)
    (ys : List Char) (h1 : ∀ x ∈ xs, p x = true) (h2 : p c = false) :
    (xs ++ c :: ys).takeWhile p = xs := by
  induction xs with
  | nil => simp [List.takeWhile_cons, h2]
  | cons x xs ih =>
    have hx := h1 x (List.mem_cons_self _ _)
    simp [List.takeWhile_cons, hx,
      ih (fun y hy => h1 y (List.mem_cons_of_mem _ hy))]

/-! ### Trailing-zero stripping lemmas -/

theorem stripTrailingZeros_append_zero (ds : List Nat) :
    stripTrailingZeros (ds ++ [0]) = stripTrailingZeros ds := by
  unfold stripTrailingZeros
  rw [List.reverse_append]
  simp [List.dropWhile_cons]

theorem stripTrailingZeros_append_nonzero (ds : List Nat) (d : Nat)
    (h : d ≠ 0) : stripTrailingZeros (ds ++ [d]) = ds ++ [d] := by
  unfold stripTrailingZeros
  rw [List.reverse_append]
  simp [List.dropWhile_cons, h]

theorem valueOfDigits_strip (ds : List Nat) :
    valueOfDigits ds
      = valueOfDigits (stripTrailingZeros ds)
        * 10 ^ (ds.length - (stripTrailingZeros ds).length) ∧
    (stripTrailingZeros ds).length ≤ ds.length := by
  induction ds using List.reverseRecOn with
  | nil => simp [stripTrailingZeros, valueOfDigits]
  | append_singleton ds d ih =>
    by_cases hd : d = 0
    · subst hd
      rw [stripTrailingZeros_append_zero]
      have hls := ih.2
      constructor
      · rw [valueOfDigits_append_single, ih.1, List.length_append,
          List.length_singleton,
          show ds.length + 1 - (stripTrailingZeros ds).length
            = (ds.length - (stripTrailingZeros ds).length) + 1 from by omega,
          pow_succ]
        ring
      · rw [List.length_append, List.length_singleton]
        omega
    · rw [stripTrailingZeros_append_nonzero ds d hd]
      simp

theorem strip_nil_value (ds : List Nat) (h : stripTrailingZeros ds = []) :
    valueOfDigits ds = 0 := by
  have hv := (valueOfDigits_strip ds).1
  rw [h] at hv
  simpa [valueOfDigits] using hv

theorem mem_strip (ds : List Nat) (d : Nat)
    (h : d ∈ stripTrailingZeros ds) : d ∈ ds := by
  unfold stripTrailingZeros at h
  rw [List.mem_reverse] at h
  exact List.mem_reverse.mp ((List.dropWhile_sublist _).subset h)

/-! ### Fraction and zone parse lemmas -/

theorem parseFrac_not_dot (c : Char) (cs : List Char) (h : c ≠ '.') :
    parseFrac (c :: cs) = some (0, c :: cs) := by
  simp [parseFrac, h]

theorem parseFrac_dot_digits (ds : List Char) (c : Char) (ys : List Char)
    (hall : ∀ x ∈ ds, isDigitB x = true) (hc1 : isDigitB c = false)
    (hne : ds ≠ []) (hle : ds.length ≤ 9) :
    parseFrac ('.' :: (ds ++ c :: ys))
      = some (valueOfDigits (ds.map digitVal) * 10 ^ (9 - ds.length),
          c :: ys) := by
  have htake : (ds ++ c :: ys).takeWhile isDigitB = ds :=
    takeWhile_append_stop _ _ _ _ hall hc1
  have hlz : ds.length ≠ 0 := fun hz => hne (List.length_eq_zero.mp hz)
  rw [show parseFrac ('.' :: (ds ++ c :: ys))
      = (let tk := (ds ++ c :: ys).takeWhile isDigitB;
         if tk.length = 0 ∨ 9 < tk.length then none
         else some (valueOfDigits (tk.map digitVal) * 10 ^ (9 - tk.length),
           (ds ++ c :: ys).drop tk.length)) from by simp [parseFrac]]
  simp only [htake]
  rw [if_neg (by omega)]
  rw [List.drop_left]

theorem parseFrac_fracPart (nanos : Nat) (hn : nanos < 10 ^ 9) (c : Char)
    (ys : List Char) (hc1 : isDigitB c = false) (hc2 : c ≠ '.') :
    parseFrac (fracPart nanos ++ (c :: ys)) = some (nanos, c :: ys) := by
  by_cases h0 : nanos = 0
  · subst h0
    simp only [fracPart, if_pos rfl, List.nil_append]
    exact parseFrac_not_dot c ys hc2
  · unfold fracPart
    rw [if_neg h0]
    have hall : ∀ x ∈ (stripTrailingZeros (natDigitsPadded 9 nanos)).map
        Nat.digitChar, isDigitB x = true := by
      intro x hx
      obtain ⟨d, hd, rfl⟩ := List.mem_map.mp hx
      exact isDigitB_digitChar d
        (natDigitsPadded_all_lt 9 nanos d (mem_strip _ _ hd))
    have htake : (((stripTrailingZeros (natDigitsPadded 9 nanos)).map
          Nat.digitChar) ++ c :: ys).takeWhile isDigitB
        = (stripTrailingZeros (natDigitsPadded 9 nanos)).map Nat.digitChar :=
      takeWhile_append_stop _ _ _ _ hall hc1
    have hlen9 : (natDigitsPadded 9 nanos).length = 9 :=
      natDigitsPadded_length _ _
    have hstrip := valueOfDigits_strip (natDigitsPadded 9 nanos)
    have hle : (stripTrailingZeros (natDigitsPadded 9 nanos)).length ≤ 9 := by
      have := hstrip.2
      omega
    have hne : (stripTrailingZeros (natDigitsPadded 9 nanos)) ≠ [] := by
      intro hnil
      have hv := strip_nil_value (natDigitsPadded 9 nanos) hnil
      rw [valueOfDigits_natDigitsPadded 9 nanos hn] at hv
      exact h0 hv
    have hmapval : ((stripTrailingZeros (natDigitsPadded 9 nanos)).map
          Nat.digitChar).map digitVal
        = stripTrailingZeros (natDigitsPadded 9 nanos) := by
      rw [List.map_map]
      have : (stripTrailingZeros (natDigitsPadded 9 nanos)).map
            (digitVal ∘ Nat.digitChar)
          = (stripTrailingZeros (natDigitsPadded 9 nanos)).map id :=
        List.map_congr_left fun d hd =>
          digitVal_digitChar d (natDigitsPadded_all_lt 9 nanos d (mem_strip _ _ hd))
      rw [this, List.map_id]
    have hval : valueOfDigits (stripTrailingZeros (natDigitsPadded 9 nanos))
        * 10 ^ (9 - (stripTrailingZeros (natDigitsPadded 9 nanos)).length)
        = nanos := by
      have h1 := hstrip.1
      rw [valueOfDigits_natDigitsPadded 9 nanos hn, hlen9] at h1
      exact h1.symm
    simp only [List.cons_append]
    rw [parseFrac_dot_digits _ c ys hall hc1
      (fun hx => hne (List.map_eq_nil_iff.mp hx))
      (by rw [List.length_map]; exact hle)]
    rw [hmapval, List.length_map, hval]

theorem parseOff_pads (sign : Int) (hh mm : Nat) (hhh : hh < 100)
    (hmm : mm < 100) :
    parseOff sign (pad 2 hh ++ ':' :: pad 2 mm)
      = some (sign * ((hh : Int) * 60 + (mm : Int)), []) := by
  unfold parseOff
  rw [parseFixed_pad 2 hh _ (lt_of_lt_of_le hhh (by norm_num))]
  simp only [Option.bind]
  rw [show (pad 2 mm : List Char) = pad 2 mm ++ [] from (List.append_nil _).symm]
  rw [expectCh_cons]
  simp only [Option.bind]
  rw [parseFixed_pad 2 mm [] (lt_of_lt_of_le hmm (by norm_num))]

theorem zonePart_head (off : Int) :
    ∃ c ys, zonePart off = c :: ys ∧ isDigitB c = false ∧ c ≠ '.' := by
  unfold zonePart
  by_cases h0 : off = 0
  · exact ⟨'Z', [], by simp [h0], by decide, by decide⟩
  · rw [if_neg h0]
    by_cases hneg : off < 0
    · exact ⟨'-', _, by rw [if_pos hneg], by decide, by decide⟩
    · exact ⟨'+', _, by rw [if_neg hneg], by decide, by decide⟩

theorem parseZone_zonePart (off : Int) (h : off.natAbs ≤ 23 * 60 + 59) :
    parseZone (zonePart off) = some (off, []) := by
  by_cases h0 : off = 0
  · subst h0
    rfl
  · have ha : off.natAbs / 60 < 100 := by omega
    have hb : off.natAbs % 60 < 100 := by omega
    have hcast : ((off.natAbs / 60 : Nat) : Int) * 60
        + ((off.natAbs % 60 : Nat) : Int) = (off.natAbs : Int) := by
      omega
    unfold zonePart
    rw [if_neg h0]
    by_cases hneg : off < 0
    · rw [if_pos hneg]
      rw [show parseZone ('-' ::
            (pad 2 (off.natAbs / 60) ++ ':' :: pad 2 (off.natAbs % 60)))
          = parseOff (-1)
            (pad 2 (off.natAbs / 60) ++ ':' :: pad 2 (off.natAbs % 60)) from by
        simp [parseZone]]
      rw [parseOff_pads (-1) _ _ ha hb]
      congr 1
      congr 1
      rw [hcast]
      omega
    · rw [if_neg hneg]
      rw [show parseZone ('+' ::
            (pad 2 (off.natAbs / 60) ++ ':' :: pad 2 (off.natAbs % 60)))
          = parseOff 1
            (pad 2 (off.natAbs / 60) ++ ':' :: pad 2 (off.natAbs % 60)) from by
        simp [parseZone]]
      rw [parseOff_pads 1 _ _ ha hb]
      congr 1
      congr 1
      rw [hcast]
      omega

theorem daysInMonth_le_31 (y m : Nat) : daysInMonth y m ≤ 31 := by
  unfold daysInMonth
  split_ifs <;> omega

theorem parseDatePart_pads (y mo d : Nat) (rest : List Char)
    (hy : y < 10000) (hmo : mo < 100) (hd : d < 100) :
    parseDatePart (pad 4 y ++ '-' :: (pad 2 mo ++ '-' :: (pad 2 d ++ rest)))
      = some (y, mo, d, rest) := by
  unfold parseDatePart
  rw [parseFixed_pad 4 y _ (lt_of_lt_of_le hy (by norm_num))]
  simp only [Option.bind]
  rw [expectCh_cons]
  simp only [Option.bind]
  rw [parseFixed_pad 2 mo _ (lt_of_lt_of_le hmo (by norm_num))]
  simp only [Option.bind]
  rw [expectCh_cons]
  simp only [Option.bind]
  rw [parseFixed_pad 2 d _ (lt_of_lt_of_le hd (by norm_num))]

theorem parseClockPart_pads (h mi s : Nat) (rest : List Char)
    (hh : h < 100) (hmi : mi < 100) (hs : s < 100) :
    parseClockPart
        ('T' :: (pad 2 h ++ ':' :: (pad 2 mi ++ ':' :: (pad 2 s ++ rest))))
      = some (h, mi, s, rest) := by
  unfold parseClockPart
  rw [expectCh_cons]
  simp only [Option.bind]
  rw [parseFixed_pad 2 h _ (lt_of_lt_of_le hh (by norm_num))]
  simp only [Option.bind]
  rw [expectCh_cons]
  simp only [Option.bind]
  rw [parseFixed_pad 2 mi _ (lt_of_lt_of_le hmi (by norm_num))]
  simp only [Option.bind]
  rw [expectCh_cons]
  simp only [Option.bind]
  rw [parseFixed_pad 2 s _ (lt_of_lt_of_le hs (by norm_num))]

/-- Round-trip of the deadline wire format: parsing a formatted well-formed
time recovers exactly its components. -/
theorem parseRFC3339Nano_format (t : DateTime) (h : wellFormedDT t) :
    parseRFC3339Nano (formatRFC3339Nano t) = some t := by
  obtain ⟨y, mo, d, hh, mi, s, ns, off⟩ := t
  simp only [wellFormedDT] at h
  obtain ⟨h1, h2, h3, h4, h5, h6, h7, h8, h9, h10, h11⟩ := h
  show parseRFC3339Nano
      (pad 4 y ++ '-' :: (pad 2 mo ++ '-' :: (pad 2 d ++ 'T' ::
        (pad 2 hh ++ ':' :: (pad 2 mi ++ ':' ::
          (pad 2 s ++ (fracPart ns ++ zonePart off)))))))
    = some ⟨y, mo, d, hh, mi, s, ns, off⟩
  unfold parseRFC3339Nano
  have hdm := daysInMonth_le_31 y mo
  rw [parseDatePart_pads y mo d _ (by omega) (by omega) (by omega)]
  simp only [Option.bind]
  rw [parseClockPart_pads hh mi s _ (by omega) (by omega) (by omega)]
  simp only [Option.bind]
  obtain ⟨c, ys, hz, hcd, hcdot⟩ := zonePart_head off
  rw [hz]
  rw [parseFrac_fracPart ns (lt_of_lt_of_le h10 (by norm_num)) c ys hcd hcdot]
  simp only [Option.bind]
  rw [← hz]
  rw [parseZone_zonePart off h11]
  simp only [Option.bind]
  have hrng : dtRangesOk y mo d hh mi s = true := by
    simp [dtRangesOk, h3, h4, h5, h6, h7, h8, h9]
  simp [hrng]

/-- Claim C7: for every non-zero absolute time expressible in the wire
format, the client's serialization of the read/write deadline parses back
on the proxy side to exactly the same time, and the proxy's deadline guard
then applies exactly the deadline the client set; the read-deadline header
the adapter sends is precisely that serialization. -/
theorem claim_C7_deadline_serialization_roundtrip (t : DateTime)
    (h : wellFormedDT t) (hz : ¬ dtIsZero t) :
    parseRFC3339Nano (formatRFC3339Nano t) = some t ∧
    applyDeadlineHdr (serializeDeadline t) = some t ∧
    (∀ subject addr uuid wdl blen now,
      (NatsNetConn.buildReadRequest
          ⟨subject, addr, uuid, t, wdl⟩ blen now).readDeadlineHdr
        = serializeDeadline t) := by
  refine ⟨parseRFC3339Nano_format t h, ?_, fun _ _ _ _ _ _ => rfl⟩
  unfold applyDeadlineHdr parseDeadlineHdr serializeDeadline
  rw [show (⟨formatRFC3339Nano t⟩ : String).toList = formatRFC3339Nano t from rfl]
  rw [parseRFC3339Nano_format t h]
  show (if dtIsZero t then none else some t) = some t
  rw [if_neg hz]

/-- Witness for C7 at a concrete nanosecond-precision time with a negative
zone offset. -/
theorem claim_C7_deadline_serialization_roundtrip_witness :
    wellFormedDT ⟨2024, 5, 17, 12, 30, 45, 123456789, -90⟩ ∧
    ¬ dtIsZero ⟨2024, 5, 17, 12, 30, 45, 123456789, -90⟩ ∧
    applyDeadlineHdr (serializeDeadline ⟨2024, 5, 17, 12, 30, 45, 123456789, -90⟩)
      = some ⟨2024, 5, 17, 12, 30, 45, 123456789, -90⟩ :=
  ⟨by decide, by decide,
    (claim_C7_deadline_serialization_roundtrip
      ⟨2024, 5, 17, 12, 30, 45, 123456789, -90⟩ (by decide) (by decide)).2.1⟩

end NetConnNatsProxy
